import Mathlib

/-!
A shallow embedding of `cumulusci/core/tasks.py` (the task lifecycle engine
of CumulusCI): option templating and validation, the `__call__` lifecycle
wrapper, the generic retry loop, the generic poll loop, the task stack, the
`freeze` serializer and the Salesforce client-name lookup, together with
theorems settling the specification's claims about them.

Python values that can appear in an options mapping are modelled by `PyVal`;
Python dicts by association lists in insertion order; Python exceptions by
`Except`; the unbounded `while True` loops by fuel-indexed recursion (the
fuel is a modelling artifact: theorems supply enough fuel for the run they
describe, and running out of fuel is reported explicitly, never silently).
-/

namespace Tasks

/-- Python scalar and container values as they occur in task options and in
frozen steps. `PyVal.none` is Python's `None`. -/
inductive PyVal where
  | str : String → PyVal
  | int : Int → PyVal
  | bool : Bool → PyVal
  | none : PyVal
  | list : List PyVal → PyVal
  | dict : List (String × PyVal) → PyVal

/-- Python truthiness for `PyVal`: empty strings, zero, `False`, `None` and
empty containers are falsy. -/
def PyVal.truthy : PyVal → Bool
  | .str s => !s.isEmpty
  | .int n => n != 0
  | .bool b => b
  | .none => false
  | .list l => !l.isEmpty
  | .dict d => !d.isEmpty

/-- Python's `a or b`: `a` when `a` is truthy, else `b`. -/
def pyOr (a b : PyVal) : PyVal := if a.truthy then a else b

/-- Python's `dict.update`: values of keys already in `base` are overwritten
in place (keeping their position), new keys are appended in order. -/
def dictUpdate {α : Type} (base upd : List (String × α)) : List (String × α) :=
  base.map (fun kv =>
    match upd.lookup kv.1 with
    | some v => (kv.1, v)
    | Option.none => kv)
  ++ upd.filter (fun kv => (base.lookup kv.1).isNone)

/-! ## Option templating (`BaseTask._init_options`)

The source substitutes `PROJECT_CONFIG_RE = re.compile(r"\$project_config.(\w+)")`
in every string-valued option, replacing each match by
`str(getattr(self.project_config, match.group(1), None))`. Note that the `.`
after `project_config` is an unescaped regex dot: it matches any single
character. `\w` is modelled for its ASCII range (letters, digits, `_`). -/

/-- The literal part of `PROJECT_CONFIG_RE`: the 15 characters before the
any-character dot. -/
def pcPattern : List Char := "$project_config".toList

/-- A `\w` character (ASCII range): letter, digit or underscore. -/
def isWordChar (c : Char) : Bool := c.isAlphanum || c == '_'

/-- Left-to-right, non-overlapping substitution of
`\$project_config.(\w+)` over a character list, as `re.sub` performs it:
at each position, either the literal `$project_config` prefix followed by
one arbitrary character and a maximal nonempty run of word characters
matches — and `g` applied to that run replaces the whole match — or one
character is copied and scanning resumes after it. -/
def pcSub (g : String → String) : List Char → List Char
  | [] => []
  | c :: cs =>
    if pcPattern.isPrefixOf (c :: cs) then
      match h : List.drop 15 (c :: cs) with
      | [] => c :: pcSub g cs
      | _ :: rest =>
        if (rest.takeWhile isWordChar).isEmpty then c :: pcSub g cs
        else (g (rest.takeWhile isWordChar).asString).toList
             ++ pcSub g (rest.dropWhile isWordChar)
    else c :: pcSub g cs
termination_by l => l.length
decreasing_by
  · simp
  · simp
  · have h1 : (List.dropWhile isWordChar rest).length ≤ rest.length :=
      (List.dropWhile_sublist _).length_le
    have h2 : rest.length + 1 = (List.drop 15 (c :: cs)).length := by rw [h]; rfl
    simp only [List.length_drop, List.length_cons] at h2 ⊢
    omega
  · simp

/-- The replacement `str(getattr(self.project_config, attr, None))`: the
project configuration is modelled as a partial map from attribute name to
the string form of its value; a missing attribute renders as `"None"`,
Python's `str(None)`. -/
def strOfAttr (pc : String → Option String) (a : String) : String :=
  match pc a with
  | some s => s
  | Option.none => "None"

/-- The per-value templating step of `_init_options`: only string values are
rewritten (`isinstance(value, str)`); every other value passes through. -/
def applyTemplating (pc : String → Option String) : PyVal → PyVal
  | .str s => .str (pcSub (strOfAttr pc) s.toList).asString
  | v => v

/-- `BaseTask._init_options`: start from `task_config.options` (an absent
mapping means `{}`), merge the constructor `kwargs` over it with dict
update semantics, then rewrite every string-valued option by
`$project_config` templating. -/
def _init_options (pc : String → Option String)
    (task_config_options : Option (List (String × PyVal)))
    (kwargs : List (String × PyVal)) : List (String × PyVal) :=
  let options := task_config_options.getD []
  let options := dictUpdate options kwargs
  options.map (fun kv => (kv.1, applyTemplating pc kv.2))

/-- Does a character list start with a non-word character (or end here)? At
such a boundary a preceding `\w+` run cannot extend further. -/
def nwHead : List Char → Bool
  | [] => true
  | c :: _ => !isWordChar c

/-- A string containing `$project_config.<attr>` occurrences, in canonical
template shape: each element contributes a plain segment followed by one
occurrence, and `tail` is the text after the last occurrence. -/
def renderL : List (List Char × List Char) → List Char → List Char
  | [], tail => tail
  | (seg, attr) :: rest, tail =>
    seg ++ pcPattern ++ '.' :: (attr ++ renderL rest tail)

/-- The same template with every occurrence replaced by `g` applied to its
attribute name — what the substitution is specified to produce. -/
def substL (g : String → String) :
    List (List Char × List Char) → List Char → List Char
  | [], tail => tail
  | (seg, attr) :: rest, tail =>
    seg ++ (g attr.asString).toList ++ substL g rest tail

/-- Side conditions making a template canonical: plain segments and the tail
carry no `$` (so they contain no occurrence and no false pattern start),
each attribute is a nonempty run of word characters, and each occurrence is
followed by a word boundary so the attribute run is maximal. -/
def goodTemplate : List (List Char × List Char) → List Char → Prop
  | [], tail => '$' ∉ tail
  | (seg, attr) :: rest, tail =>
    '$' ∉ seg ∧ attr ≠ [] ∧ (∀ c ∈ attr, isWordChar c = true)
    ∧ nwHead (renderL rest tail) = true ∧ goodTemplate rest tail

/-! ## Option validation (`BaseTask._validate_options`) -/

/-- The test `config.get("required") is True` of the source: the descriptor's
`required` entry must be identically the boolean `True` — any other value,
truthy or not, and also an absent entry, fails the identity test. -/
def requiredIsTrue (config : List (String × PyVal)) : Bool :=
  match config.lookup "required" with
  | some (PyVal.bool true) => true
  | _ => false

/-- `BaseTask._validate_options`: collect, in schema declaration order, every
option name whose descriptor has `required` identically `True` and which is
not a key of the resolved options mapping (`name not in self.options` — key
presence, whatever the value); when the list is nonempty raise
`TaskOptionsError` with the comma-joined names. -/
def _validate_options (className : String)
    (task_options : List (String × List (String × PyVal)))
    (options : List (String × PyVal)) : Except String Unit :=
  let missing_required := task_options.foldl
    (fun acc nc =>
      if requiredIsTrue nc.2 && (options.lookup nc.1).isNone then acc ++ [nc.1]
      else acc) []
  if missing_required.isEmpty then Except.ok ()
  else Except.error (className ++ " requires the options ("
    ++ String.intercalate "," missing_required
    ++ ") and no values were provided")

/-! ## The retry loop (`BaseTask._retry`) -/

/-- The three options `_retry` reads, as the numeric values the loop
arithmetic treats them as; Python truthiness of a number is being nonzero. -/
structure RetryOpts where
  retries : Int
  retry_interval : Int
  retry_interval_add : Int
deriving Repr, DecidableEq

/-- Python truthiness of a numeric option. -/
def intTruthy (i : Int) : Bool := i != 0

/-- How a run of the retry loop ended: the step succeeded, the step's final
exception was re-raised, or the modelling fuel ran out mid-loop. -/
inductive RetryEnd (E : Type) where
  | success : RetryEnd E
  | raised : E → RetryEnd E
  | fuelOut : RetryEnd E
deriving Repr, DecidableEq

/-- A finished run of the retry loop: how it ended, the options mapping as
the loop left it, how many times `_try` was invoked, and the sleep
durations in order. -/
structure RetryRes (E : Type) where
  fin : RetryEnd E
  opts : RetryOpts
  attempts : Nat
  sleeps : List Int
deriving Repr, DecidableEq

/-- `BaseTask._retry`. `step a` is attempt number `a` (0-based) of
`self._try()`; `valid` is `self._is_retry_valid`. One iteration: try the
step; on success break; on failure, if `retries` is falsy or the error is
not retryable re-raise; otherwise if `retry_interval` is truthy sleep for it
and then add `retry_interval_add` to it when that is truthy; finally
decrement `retries` and loop. `a` counts the attempts already made. -/
def _retry {E : Type} (step : Nat → Except E Unit) (valid : E → Bool) :
    Nat → Nat → RetryOpts → RetryRes E
  | 0, a, opts => ⟨.fuelOut, opts, a, []⟩
  | fuel + 1, a, opts =>
    match step a with
    | .ok _ => ⟨.success, opts, a + 1, []⟩
    | .error e =>
      if intTruthy opts.retries && valid e then
        if intTruthy opts.retry_interval then
          let newInterval :=
            if intTruthy opts.retry_interval_add then
              opts.retry_interval + opts.retry_interval_add
            else opts.retry_interval
          let r := _retry step valid fuel (a + 1)
            ⟨opts.retries - 1, newInterval, opts.retry_interval_add⟩
          ⟨r.fin, r.opts, r.attempts, opts.retry_interval :: r.sleeps⟩
        else
          _retry step valid fuel (a + 1)
            ⟨opts.retries - 1, opts.retry_interval, opts.retry_interval_add⟩
      else ⟨.raised e, opts, a + 1, []⟩

/-! ## The poll loop (`BaseTask._poll`) -/

/-- The four fields `_reset_poll` initializes. -/
structure PollState where
  poll_complete : Bool
  poll_count : Nat
  poll_interval_level : Nat
  poll_interval_s : Nat
deriving Repr, DecidableEq

/-- `BaseTask._reset_poll`. -/
def _reset_poll : PollState :=
  { poll_complete := false, poll_count := 0
    poll_interval_level := 0, poll_interval_s := 1 }

/-- `BaseTask._poll_update_interval`: increase the interval by 1 second every
3 polls. -/
def _poll_update_interval (st : PollState) : PollState :=
  if st.poll_count / 3 > st.poll_interval_level then
    { st with poll_interval_level := st.poll_interval_level + 1
              poll_interval_s := st.poll_interval_s + 1 }
  else st

/-- `BaseTask._poll`. `action` is the abstract `self._poll_action()`, a state
transformer that may set `poll_complete`. One iteration: increment
`poll_count`, run the action, break if complete, else sleep for the current
`poll_interval_s` and update the interval. Returns the final state and the
sleep durations in order, or `none` when the modelling fuel ran out before
the probe signalled completion. -/
def _poll (action : PollState → PollState) :
    Nat → PollState → Option (PollState × List Nat)
  | 0, _ => Option.none
  | fuel + 1, st =>
    let st1 := action { st with poll_count := st.poll_count + 1 }
    if st1.poll_complete then some (st1, [])
    else
      match _poll action fuel (_poll_update_interval st1) with
      | some (fin, sleeps) => some (fin, st1.poll_interval_s :: sleeps)
      | Option.none => Option.none

/-! ## The lifecycle wrapper (`BaseTask.__call__`) and the task stack -/

/-- The thread-scoped ambient state `__call__` touches: the thread's
`CURRENT_TASK.stack` (top of stack is the last element, as for a Python
list) and the process working directory. `τ` is the type of task
references. -/
structure World (τ : Type) where
  stack : List τ
  cwd : String

/-- The task-instance fields `__call__` writes. -/
structure TaskMut where
  result : Option PyVal
  return_values : List (String × PyVal)
  working_path : Option String

/-- The observable hook calls of one invocation, in order:
`self._update_credentials()`, `self._init_task()`, `self._log_begin()`. -/
inductive Event where
  | update_credentials
  | init_task
  | log_begin
deriving Repr, DecidableEq

/-- An invocation error: the `TaskRequiresSalesforceOrg` precondition
failure, or an exception of the task body propagated unchanged. -/
inductive CallErr (E : Type) where
  | requiresOrg : String → CallErr E
  | bodyErr : E → CallErr E

/-- The message of the `TaskRequiresSalesforceOrg` raise in `__call__`. -/
def requiresOrgMsg : String :=
  "This task requires a salesforce org. "
  ++ "Use org default <name> to set a default org "
  ++ "or pass the org name with the --org option"

/-- Modelled from the spec: `cumulusci.utils.cd` is not among the staged
source files; per the spec's lifecycle step 5 it "remember[s] the caller's
current directory, then scope[s] execution to the project's root directory
if one is configured, restoring the original directory unconditionally on
exit". `cdEnter path cwd` is the directory in effect inside the scope. -/
def cdEnter (path : Option String) (cwd : String) : String := path.getD cwd

/-- `BaseTask.__call__`. `salesforce_task` and `org_present` model
`self.salesforce_task` and `self.org_config` being attached; `path` models
`self.project_config.repo_root if self.project_config else None`; `body` is
the task body `self._run_task()` run in the ambient world (it may move the
working directory, and with the stack held to its depth contract), returning
its updated world, updated task fields and its result or exception; `self`
is the task reference pushed on the stack. In order: the
`TaskRequiresSalesforceOrg` precondition check before any side effect, the
credential and init hooks, `stacked_task` push, `working_path = os.getcwd()`,
`cd` into the repo root, `_log_begin`, the body, then — on every exit path —
`cd`'s restore of the saved directory followed by `stacked_task`'s pop. -/
def call {E τ : Type} (salesforce_task org_present : Bool) (path : Option String)
    (body : World τ → TaskMut → World τ × TaskMut × Except E PyVal)
    (self : τ) (w : World τ) (tm : TaskMut) :
    World τ × TaskMut × List Event × Except (CallErr E) (List (String × PyVal)) :=
  if salesforce_task && !org_present then
    (w, tm, [], Except.error (CallErr.requiresOrg requiresOrgMsg))
  else
    let w1 : World τ := { w with stack := w.stack ++ [self] }
    let tm1 : TaskMut := { tm with working_path := some w1.cwd }
    let saved := w1.cwd
    let w2 : World τ := { w1 with cwd := cdEnter path w1.cwd }
    let events := [Event.update_credentials, Event.init_task, Event.log_begin]
    match body w2 tm1 with
    | (w3, tm2, res) =>
      let w4 : World τ := { w3 with cwd := saved }
      let w5 : World τ := { w4 with stack := w4.stack.dropLast }
      match res with
      | Except.ok v =>
        (w5, { tm2 with result := some v }, events, Except.ok tm2.return_values)
      | Except.error e => (w5, tm2, events, Except.error (CallErr.bodyErr e))

/-! ## The freezer (`BaseTask.freeze`) -/

/-- A step number as the flow supplies it (`str(step.step_num)` is applied
to it); step numbers are numbers or strings. -/
inductive StepNum where
  | int : Int → StepNum
  | str : String → StepNum

/-- Python's `str()` on a step number. -/
def StepNum.toText : StepNum → String
  | .int n => toString n
  | .str s => s

/-- What `freeze` reads from `self.task_config`: its `name`, `checks` and
`class_path` values and the `ui_options` mapping of its raw config
(`self.task_config.config.get("ui_options", {})`). -/
structure TaskConfigM where
  name : PyVal
  checks : PyVal
  class_path : PyVal
  ui_options : List (String × PyVal)

/-- What `freeze` reads from its `step` argument: `step.path`,
`step.step_num` and `step.project_config.source.frozenspec`. -/
structure StepM where
  path : PyVal
  step_num : StepNum
  frozenspec : PyVal

/-- `BaseTask.freeze`: build `{name, kind, is_required}` with the defaults,
overlay the task config's `ui_options`, then unconditionally overwrite
`path`, `step_num` (as text), `task_class`, the nested
`{options, checks}` block and `source`; return the one-record list. -/
def freeze (tc : TaskConfigM) (self_name : PyVal)
    (options : List (String × PyVal)) (step : StepM) : List PyVal :=
  let ui_step : List (String × PyVal) :=
    [("name", pyOr tc.name self_name),
     ("kind", PyVal.str "other"),
     ("is_required", PyVal.bool true)]
  let ui_step := dictUpdate ui_step tc.ui_options
  let task_config : List (String × PyVal) :=
    [("options", PyVal.dict options),
     ("checks", pyOr tc.checks (PyVal.list []))]
  let ui_step := dictUpdate ui_step
    [("path", step.path),
     ("step_num", PyVal.str step.step_num.toText),
     ("task_class", tc.class_path),
     ("task_config", PyVal.dict task_config),
     ("source", step.frozenspec)]
  [PyVal.dict ui_step]

/-! ## Client identity (`BaseSalesforceTask._get_client_name`) -/

/-- The two exception kinds the `except` clause of `_get_client_name`
catches, plus any other service error, which it does not catch. -/
inductive ServiceErr where
  | serviceNotValid
  | serviceNotConfigured
  | other : String → ServiceErr
deriving Repr, DecidableEq

/-- The connected-app service record, of which `client_id` is read. -/
structure ConnectedApp where
  client_id : String

/-- `BaseSalesforceTask._get_client_name`: look up the `connectedapp`
service in the keychain and return its `client_id`; fall back to
`CumulusCI/<version>` when the lookup raises `ServiceNotValid` or
`ServiceNotConfigured`; any other error propagates. -/
def _get_client_name (version : String)
    (get_service : String → Except ServiceErr ConnectedApp) :
    Except ServiceErr String :=
  match get_service "connectedapp" with
  | Except.ok app => Except.ok app.client_id
  | Except.error ServiceErr.serviceNotValid =>
    Except.ok ("CumulusCI/" ++ version)
  | Except.error ServiceErr.serviceNotConfigured =>
    Except.ok ("CumulusCI/" ++ version)
  | Except.error e => Except.error e

/-! ## Helper lemmas -/

lemma foldl_if_append {α β : Type} (p : α → Bool) (f : α → β) (l : List α) :
    ∀ init : List β,
      l.foldl (fun acc x => if p x then acc ++ [f x] else acc) init
        = init ++ (l.filter p).map f := by
  induction l with
  | nil => intro init; simp
  | cons a t ih =>
    intro init
    by_cases h : p a = true <;>
      simp [h, ih, List.filter_cons]

lemma requiredIsTrue_iff (config : List (String × PyVal)) :
    requiredIsTrue config = true
      ↔ config.lookup "required" = some (PyVal.bool true) := by
  rcases h : config.lookup "required" with _ | v
  · simp [requiredIsTrue, h]
  · rcases v with s | n | b | _ | l | d
    all_goals first
      | (cases b <;> simp [requiredIsTrue, h])
      | simp [requiredIsTrue, h]

/-- The loop of `_validate_options` collects exactly the schema-ordered
names of the required-and-absent options. -/
lemma validate_missing_eq (c : String)
    (sch : List (String × List (String × PyVal)))
    (o : List (String × PyVal)) :
    _validate_options c sch o =
      (if ((sch.filter
            (fun p => requiredIsTrue p.2 && (o.lookup p.1).isNone)).map
              Prod.fst).isEmpty
       then Except.ok ()
       else Except.error (c ++ " requires the options ("
          ++ String.intercalate ","
            ((sch.filter
              (fun p => requiredIsTrue p.2 && (o.lookup p.1).isNone)).map
                Prod.fst)
          ++ ") and no values were provided")) := by
  simp only [_validate_options]
  rw [foldl_if_append (fun nc => requiredIsTrue nc.2 && (o.lookup nc.1).isNone)
    Prod.fst sch []]
  simp

lemma validate_filter_ne_nil_iff
    (sch : List (String × List (String × PyVal)))
    (o : List (String × PyVal)) :
    ((sch.filter (fun p => requiredIsTrue p.2 && (o.lookup p.1).isNone)).map
        Prod.fst) ≠ []
      ↔ ∃ p ∈ sch, p.2.lookup "required" = some (PyVal.bool true)
          ∧ o.lookup p.1 = Option.none := by
  have hpt : ∀ p : String × List (String × PyVal),
      (requiredIsTrue p.2 && (o.lookup p.1).isNone) = true
        ↔ (p.2.lookup "required" = some (PyVal.bool true)
            ∧ o.lookup p.1 = Option.none) := by
    intro p
    rw [Bool.and_eq_true, requiredIsTrue_iff, Option.isNone_iff_eq_none]
  rw [ne_eq, List.map_eq_nil_iff, List.filter_eq_nil_iff]
  constructor
  · intro h
    rcases not_forall.mp h with ⟨p, hp⟩
    rcases Classical.not_imp.mp hp with ⟨hmem, hrest⟩
    exact ⟨p, hmem, (hpt p).mp (not_not.mp hrest)⟩
  · rintro ⟨p, hmem, hAB⟩ hall
    exact hall p hmem ((hpt p).mpr hAB)

/-! ## Claim theorems -/

/-- C3. Task construction fails with a `TaskOptionsError` exactly when some
option marked `required` (identically `True`) in the task-type's schema is
absent from the resolved options mapping, and the error message names every
missing required option, comma-joined in schema declaration order; with no
missing required option, no such error is raised. -/
theorem missing_required_validation (c : String)
    (sch : List (String × List (String × PyVal)))
    (o : List (String × PyVal)) :
    ((∃ msg, _validate_options c sch o = Except.error msg)
      ↔ ∃ p ∈ sch, p.2.lookup "required" = some (PyVal.bool true)
          ∧ o.lookup p.1 = Option.none)
    ∧ (_validate_options c sch o = Except.ok ()
      ∨ _validate_options c sch o = Except.error (c ++ " requires the options ("
          ++ String.intercalate ","
            ((sch.filter
              (fun p => requiredIsTrue p.2 && (o.lookup p.1).isNone)).map
                Prod.fst)
          ++ ") and no values were provided")) := by
  rw [validate_missing_eq]
  rcases eq_or_ne ((sch.filter
      (fun p => requiredIsTrue p.2 && (o.lookup p.1).isNone)).map Prod.fst) []
    with hemp | hemp
  · rw [hemp]
    constructor
    · simp only [List.isEmpty_nil, if_true]
      constructor
      · rintro ⟨msg, hmsg⟩; cases hmsg
      · intro hex
        exact absurd hemp ((validate_filter_ne_nil_iff sch o).mpr hex)
    · left; simp
  · rw [if_neg (by simpa [List.isEmpty_iff] using hemp)]
    constructor
    · constructor
      · intro _; exact (validate_filter_ne_nil_iff sch o).mp hemp
      · intro _; exact ⟨_, rfl⟩
    · right; rfl

/-- C10. An option name contributes sch the missing-required failure exactly
when it is absent from the options mapping and its descriptor's `required`
entry is identically the boolean `True`: any other truthy `required` value
(the integer 1, a non-empty string) imposes no requirement, and a key
present with any value — `None` included — satisfies the requirement. -/
theorem required_identity_semantics :
    (∀ (c : String) (sch : List (String × List (String × PyVal)))
        (o : List (String × PyVal)),
      _validate_options c sch o = Except.ok ()
        ↔ ∀ p ∈ sch, p.2.lookup "required" = some (PyVal.bool true)
            → (o.lookup p.1).isSome = true)
    ∧ _validate_options "T" [("x", [("required", PyVal.int 1)])] []
        = Except.ok ()
    ∧ _validate_options "T" [("x", [("required", PyVal.str "yes")])] []
        = Except.ok ()
    ∧ _validate_options "T" [("x", [("required", PyVal.bool true)])]
        [("x", PyVal.none)] = Except.ok ()
    ∧ _validate_options "T" [("x", [("required", PyVal.bool true)])] []
        = Except.error "T requires the options (x) and no values were provided" := by
  refine ⟨?_, rfl, rfl, rfl, rfl⟩
  intro c sch o
  rw [validate_missing_eq]
  rcases eq_or_ne ((sch.filter
      (fun p => requiredIsTrue p.2 && (o.lookup p.1).isNone)).map Prod.fst) []
    with hemp | hemp
  · rw [hemp]
    simp only [List.isEmpty_nil, if_true, true_iff]
    intro p hp hreq
    by_contra hnone
    have hn : o.lookup p.1 = Option.none := by
      rcases h : o.lookup p.1 with _ | v
      · rfl
      · rw [h] at hnone; simp at hnone
    exact absurd hemp ((validate_filter_ne_nil_iff sch o).mpr ⟨p, hp, hreq, hn⟩)
  · rw [if_neg (by simpa [List.isEmpty_iff] using hemp)]
    constructor
    · intro h; cases h
    · intro hall
      rcases (validate_filter_ne_nil_iff sch o).mp hemp with ⟨p, hp, hreq, hnone⟩
      have hs := hall p hp hreq
      rw [hnone] at hs
      simp at hs

/-- C9. The client-identity query returns the configured connected app's
client id when the keychain lookup of the `connectedapp` service succeeds,
falls back to `CumulusCI/<version>` when the lookup raises
`ServiceNotValid` or `ServiceNotConfigured`, and never propagates those two
error kinds to the caller. -/
theorem client_name_fallback (version : String)
    (gs : String → Except ServiceErr ConnectedApp) :
    (∀ app, gs "connectedapp" = Except.ok app
      → _get_client_name version gs = Except.ok app.client_id)
    ∧ ((gs "connectedapp" = Except.error ServiceErr.serviceNotValid
        ∨ gs "connectedapp" = Except.error ServiceErr.serviceNotConfigured)
      → _get_client_name version gs = Except.ok ("CumulusCI/" ++ version))
    ∧ _get_client_name version gs ≠ Except.error ServiceErr.serviceNotValid
    ∧ _get_client_name version gs ≠ Except.error ServiceErr.serviceNotConfigured := by
  refine ⟨?_, ?_, ?_, ?_⟩
  · intro app h; simp [_get_client_name, h]
  · rintro (h | h) <;> simp [_get_client_name, h]
  · unfold _get_client_name
    rcases h : gs "connectedapp" with e | app
    · rcases e <;> simp
    · simp
  · unfold _get_client_name
    rcases h : gs "connectedapp" with e | app
    · rcases e <;> simp
    · simp

/-- C5. A task variant with `salesforce_task = True` invoked with no org
config attached raises `TaskRequiresSalesforceOrg` (with the message
telling the caller how to supply an org) before any other side effect: no
credential refresh, no init hook, no stack push, no working-directory
change, no begin-banner logging, and the task's mutable state (result,
return values, working path) is unchanged. -/
theorem salesforce_org_precondition {E τ : Type} (path : Option String)
    (body : World τ → TaskMut → World τ × TaskMut × Except E PyVal)
    (self : τ) (w : World τ) (tm : TaskMut) :
    call true false path body self w tm
      = (w, tm, [], Except.error (CallErr.requiresOrg requiresOrgMsg)) := rfl

/-- C6. For every invocation — whether the body returns normally or raises —
the task stack's depth and the working directory are restored to their
pre-invocation values (the body may move the working directory freely and
holds the stack to its depth contract); the body runs on the world whose
stack has the executing task pushed on top; and the unwinding never
suppresses the body's outcome: a normal return yields the return values,
an error propagates unchanged. When the precondition fails instead, stack
and directory are trivially untouched. -/
theorem call_stack_cwd_invariants {E τ : Type} (sf org : Bool)
    (path : Option String)
    (body : World τ → TaskMut → World τ × TaskMut × Except E PyVal)
    (self : τ) (w : World τ) (tm : TaskMut)
    (hbody : ∀ w' tm', (body w' tm').1.stack.length = w'.stack.length) :
    (call sf org path body self w tm).1.stack.length = w.stack.length
    ∧ (call sf org path body self w tm).1.cwd = w.cwd
    ∧ (w.stack ++ [self]).getLast? = some self
    ∧ ((sf = true → org = true)
        → (call sf org path body self w tm).2.2.2
            = match (body { stack := w.stack ++ [self], cwd := cdEnter path w.cwd }
                { tm with working_path := some w.cwd }).2.2 with
              | Except.ok _ =>
                Except.ok (body { stack := w.stack ++ [self], cwd := cdEnter path w.cwd }
                  { tm with working_path := some w.cwd }).2.1.return_values
              | Except.error e => Except.error (CallErr.bodyErr e)) := by
  by_cases hsp : (sf && !org) = true
  · have hsf : sf = true := by revert hsp; cases sf <;> cases org <;> simp
    have horg : org = false := by revert hsp; cases sf <;> cases org <;> simp
    subst hsf horg
    refine ⟨rfl, rfl, List.getLast?_concat _, ?_⟩
    intro hpre
    cases hpre rfl
  · rcases hP : body { stack := w.stack ++ [self], cwd := cdEnter path w.cwd }
      { tm with working_path := some w.cwd } with ⟨w3, tm2, res⟩
    have hlen : w3.stack.length = w.stack.length + 1 := by
      have := hbody { stack := w.stack ++ [self], cwd := cdEnter path w.cwd }
        { tm with working_path := some w.cwd }
      rw [hP] at this
      simpa using this
    have hcall : call sf org path body self w tm
        = ({ stack := w3.stack.dropLast, cwd := w.cwd },
           (match res with
            | Except.ok v => ({ tm2 with result := some v }, Except.ok tm2.return_values)
            | Except.error e => (tm2, Except.error (CallErr.bodyErr e))).1,
           [Event.update_credentials, Event.init_task, Event.log_begin],
           (match res with
            | Except.ok v => ({ tm2 with result := some v }, Except.ok tm2.return_values)
            | Except.error e =>
              (tm2, (Except.error (CallErr.bodyErr e) :
                Except (CallErr E) (List (String × PyVal))))).2) := by
      rcases res with v | e <;>
        simp [call, hsp, hP]
    refine ⟨?_, ?_, List.getLast?_concat _, ?_⟩
    · rw [hcall]
      simp [List.length_dropLast, hlen]
    · rw [hcall]
    · intro _
      rw [hcall]
      rcases res with v | e <;> rfl

/-- Witness for C6 at a concrete invocation: a body that raises and moves
the working directory, run on a one-deep stack. -/
theorem call_stack_cwd_invariants_witness :
    (call true true (some "/repo")
      (fun (w' : World Nat) (tm' : TaskMut) =>
        ({ w' with cwd := "/elsewhere" }, tm', (Except.error 42 : Except Nat PyVal)))
      7 { stack := [3], cwd := "/home" }
      { result := Option.none, return_values := [], working_path := Option.none
        }).1.stack.length = 1 :=
  (call_stack_cwd_invariants true true (some "/repo")
    (fun (w' : World Nat) (tm' : TaskMut) =>
      ({ w' with cwd := "/elsewhere" }, tm', (Except.error 42 : Except Nat PyVal)))
    7 { stack := [3], cwd := "/home" }
    { result := Option.none, return_values := [], working_path := Option.none }
    (fun _ _ => rfl)).1

/-- With a step that fails on every attempt and errors the predicate always
accepts, a loop entered with `retries = N` re-raises the error of attempt
`a + N` after exactly `N + 1` further step invocations. -/
lemma retry_allfail {E : Type} (step : Nat → Except E Unit) (valid : E → Bool)
    (err : Nat → E)
    (hstep : ∀ i, step i = Except.error (err i))
    (hvalid : ∀ i, valid (err i) = true) :
    ∀ (N fuel a : Nat) (opts : RetryOpts), opts.retries = (N : Int)
      → N < fuel
      → (_retry step valid fuel a opts).fin = RetryEnd.raised (err (a + N))
        ∧ (_retry step valid fuel a opts).attempts = a + N + 1 := by
  intro N
  induction N with
  | zero =>
    intro fuel a opts hr hf
    match fuel, hf with
    | fuel + 1, _ =>
      have ht : intTruthy opts.retries = false := by simp [intTruthy, hr]
      simp [_retry, hstep a, ht]
  | succ n ih =>
    intro fuel a opts hr hf
    match fuel, hf with
    | fuel + 1, hf =>
      have ht : intTruthy opts.retries = true := by
        simp only [intTruthy, hr, bne_iff_ne, ne_eq]
        exact_mod_cast Nat.succ_ne_zero n
      have hr' : ((n + 1 : Nat) : Int) - 1 = (n : Int) := by push_cast; ring
      have harith : a + 1 + n = a + (n + 1) := by omega
      by_cases hI : intTruthy opts.retry_interval
      · have h1 := ih fuel (a + 1)
          ⟨opts.retries - 1,
           if intTruthy opts.retry_interval_add then
             opts.retry_interval + opts.retry_interval_add
           else opts.retry_interval,
           opts.retry_interval_add⟩
          (by rw [hr]; exact hr') (by omega)
        rw [harith] at h1
        simp [_retry, hstep a, ht, hvalid a, hI, h1.1, h1.2]
      · have h1 := ih fuel (a + 1)
          ⟨opts.retries - 1, opts.retry_interval, opts.retry_interval_add⟩
          (by rw [hr]; exact hr') (by omega)
        rw [harith] at h1
        simp [_retry, hstep a, ht, hvalid a, hI, h1.1, h1.2]

/-- With a step that fails on the `k` attempts after `a` and then succeeds,
and at least `k` retries remaining, the loop returns success after `k + 1`
further invocations, having decremented `retries` exactly `k` times. -/
lemma retry_succeeds {E : Type} (step : Nat → Except E Unit) (valid : E → Bool)
    (err : Nat → E) (hvalid : ∀ i, valid (err i) = true) :
    ∀ (k fuel a : Nat) (opts : RetryOpts),
      (∀ j, j < k → step (a + j) = Except.error (err (a + j)))
      → step (a + k) = Except.ok ()
      → (k : Int) ≤ opts.retries
      → k < fuel
      → (_retry step valid fuel a opts).fin = RetryEnd.success
        ∧ (_retry step valid fuel a opts).attempts = a + k + 1
        ∧ (_retry step valid fuel a opts).opts.retries = opts.retries - k := by
  intro k
  induction k with
  | zero =>
    intro fuel a opts hf hs hk hfuel
    match fuel, hfuel with
    | fuel + 1, _ =>
      have hs0 : step a = Except.ok () := by simpa using hs
      simp [_retry, hs0]
  | succ n ih =>
    intro fuel a opts hf hs hk hfuel
    match fuel, hfuel with
    | fuel + 1, hfuel =>
      have hs0 : step a = Except.error (err a) := by
        simpa using hf 0 (Nat.succ_pos n)
      have ht : intTruthy opts.retries = true := by
        simp only [intTruthy, bne_iff_ne, ne_eq]
        intro h0
        rw [h0] at hk
        omega
      have hf' : ∀ j, j < n → step (a + 1 + j) = Except.error (err (a + 1 + j)) := by
        intro j hj
        have := hf (j + 1) (by omega)
        rwa [show a + (j + 1) = a + 1 + j by omega] at this
      have hs' : step (a + 1 + n) = Except.ok () := by
        rwa [show a + (n + 1) = a + 1 + n by omega] at hs
      have harith : a + 1 + n = a + (n + 1) := by omega
      have hretr : (opts.retries - 1) - (n : Int) = opts.retries - ((n + 1 : Nat) : Int) := by
        push_cast; ring
      by_cases hI : intTruthy opts.retry_interval
      · have h1 := ih fuel (a + 1)
          ⟨opts.retries - 1,
           if intTruthy opts.retry_interval_add then
             opts.retry_interval + opts.retry_interval_add
           else opts.retry_interval,
           opts.retry_interval_add⟩
          hf' hs' (by simp only; push_cast at hk ⊢; omega) (by omega)
        rw [harith] at h1
        simp only [_retry, hs0, ht, hvalid a, Bool.and_self, if_true, hI]
        refine ⟨by simp [h1.1], by simp [h1.2.1], ?_⟩
        simp only at h1
        simp [h1.2.2, hretr]
      · have h1 := ih fuel (a + 1)
          ⟨opts.retries - 1, opts.retry_interval, opts.retry_interval_add⟩
          hf' hs' (by simp only; push_cast at hk ⊢; omega) (by omega)
        rw [harith] at h1
        simp only [_retry, hs0, ht, hvalid a, Bool.and_self, if_true, hI]
        refine ⟨by simp [h1.1], by simp [h1.2.1], ?_⟩
        simp only at h1
        simp [h1.2.2, hretr]

/-- C1. With `retries = N`: a step failing on every attempt with every error
accepted by the retryability predicate is invoked exactly `N + 1` times and
the final error is re-raised; a step failing on its first `k ≤ N` attempts
and then succeeding makes the loop return normally with `retries = N - k`
afterward, one decrement per failed-then-retried attempt. -/
theorem retry_attempt_budget :
    (∀ (E : Type) (N : Nat) (step : Nat → Except E Unit) (valid : E → Bool)
        (err : Nat → E) (fuel : Nat) (opts : RetryOpts),
      opts.retries = (N : Int)
      → (∀ i, step i = Except.error (err i))
      → (∀ i, valid (err i) = true)
      → N < fuel
      → (_retry step valid fuel 0 opts).fin = RetryEnd.raised (err N)
        ∧ (_retry step valid fuel 0 opts).attempts = N + 1)
    ∧ (∀ (E : Type) (N k : Nat) (step : Nat → Except E Unit) (valid : E → Bool)
        (err : Nat → E) (fuel : Nat) (opts : RetryOpts),
      opts.retries = (N : Int)
      → k ≤ N
      → (∀ j, j < k → step j = Except.error (err j))
      → step k = Except.ok ()
      → (∀ i, valid (err i) = true)
      → k < fuel
      → (_retry step valid fuel 0 opts).fin = RetryEnd.success
        ∧ (_retry step valid fuel 0 opts).attempts = k + 1
        ∧ (_retry step valid fuel 0 opts).opts.retries = (N : Int) - k) := by
  constructor
  · intro E N step valid err fuel opts hr hstep hvalid hfuel
    have h := retry_allfail step valid err hstep hvalid N fuel 0 opts hr hfuel
    simpa using h
  · intro E N k step valid err fuel opts hr hk hf hs hvalid hfuel
    have h := retry_succeeds step valid err hvalid k fuel 0 opts
      (by intro j hj; simpa using hf j hj) (by simpa using hs)
      (by rw [hr]; exact_mod_cast hk) hfuel
    rw [hr] at h
    simpa using h

/-- Splitting off the first element of the arithmetic backoff sequence. -/
lemma backoff_list (I A : Int) (n : Nat) :
    (List.range (n + 1)).map (fun m : Nat => I + (m : Int) * A)
      = I :: (List.range n).map (fun m : Nat => (I + A) + (m : Int) * A) := by
  rw [List.range_succ_eq_map, List.map_cons, List.map_map]
  congr 1
  · push_cast; ring
  · apply List.map_congr_left
    intro m _
    simp only [Function.comp_apply]
    push_cast; ring

/-- With an always-failing, always-retryable step, positive `retry_interval`
`I` and nonnegative `retry_interval_add` `A`, a run entered with
`retries = N` sleeps `I, I+A, I+2A, ...` — `N` sleeps in order. -/
lemma retry_backoff {E : Type} (step : Nat → Except E Unit) (valid : E → Bool)
    (err : Nat → E)
    (hstep : ∀ i, step i = Except.error (err i))
    (hvalid : ∀ i, valid (err i) = true) :
    ∀ (N fuel a : Nat) (opts : RetryOpts) (I A : Int),
      opts.retries = (N : Int) → opts.retry_interval = I
      → opts.retry_interval_add = A
      → 0 < I → 0 ≤ A → N < fuel →
      (_retry step valid fuel a opts).sleeps
        = (List.range N).map (fun m : Nat => I + (m : Int) * A) := by
  intro N
  induction N with
  | zero =>
    intro fuel a opts I A hr hI2 hA2 hI hA hfuel
    match fuel, hfuel with
    | fuel + 1, _ =>
      have ht : intTruthy opts.retries = false := by simp [intTruthy, hr]
      simp [_retry, hstep a, ht]
  | succ n ih =>
    intro fuel a opts I A hr hI2 hA2 hI hA hfuel
    subst hI2
    subst hA2
    match fuel, hfuel with
    | fuel + 1, hfuel =>
      have ht : intTruthy opts.retries = true := by
        simp only [intTruthy, hr, bne_iff_ne, ne_eq]
        exact_mod_cast Nat.succ_ne_zero n
      have hti : intTruthy opts.retry_interval = true := by
        simp only [intTruthy, bne_iff_ne, ne_eq]
        omega
      have hii : (if intTruthy opts.retry_interval_add then
            opts.retry_interval + opts.retry_interval_add
          else opts.retry_interval)
          = opts.retry_interval + opts.retry_interval_add := by
        by_cases hA0 : intTruthy opts.retry_interval_add
        · rw [if_pos hA0]
        · rw [if_neg hA0]
          simp only [intTruthy, bne_iff_ne, ne_eq, Classical.not_not] at hA0
          omega
      have h1 := ih fuel (a + 1)
        ⟨opts.retries - 1,
         if intTruthy opts.retry_interval_add then
           opts.retry_interval + opts.retry_interval_add
         else opts.retry_interval,
         opts.retry_interval_add⟩
        (opts.retry_interval + opts.retry_interval_add) opts.retry_interval_add
        (by simp only; rw [hr]; push_cast; ring)
        (by simp only [hii])
        (by simp only)
        (by omega) hA (by omega)
      simp [_retry, hstep a, ht, hvalid a, hti, h1, backoff_list]

/-- With `retry_interval` falsy (zero), the loop never sleeps and never
changes the interval, whatever the step does. -/
lemma retry_no_interval {E : Type} (step : Nat → Except E Unit)
    (valid : E → Bool) :
    ∀ (fuel a : Nat) (opts : RetryOpts), opts.retry_interval = 0 →
      (_retry step valid fuel a opts).sleeps = []
      ∧ (_retry step valid fuel a opts).opts.retry_interval = 0 := by
  intro fuel
  induction fuel with
  | zero => intro a opts h0; simp [_retry, h0]
  | succ fuel ih =>
    intro a opts h0
    have hti : intTruthy opts.retry_interval = false := by simp [intTruthy, h0]
    rcases hs : step a with e | u
    · by_cases hc : (intTruthy opts.retries && valid e) = true
      · have h1 := ih (a + 1)
          ⟨opts.retries - 1, opts.retry_interval, opts.retry_interval_add⟩
          (by simpa using h0)
        simp [_retry, hs, hc, hti, h1.1, h1.2]
      · simp [_retry, hs, hc, h0]
    · simp [_retry, hs, h0]

/-- C7 (amended). With positive `retry_interval = I` and nonnegative
`retry_interval_add = A`, the successive sleeps before retries are exactly
`I, I+A, I+2A, ...`, the interval incremented by `A` after each sleep; with
`retry_interval` falsy, no sleep occurs and the interval is never
incremented. (As claimed — for all truthy numeric `I` and `A` — the
property fails: a negative `A` can drive the interval to zero, after which
the loop stops sleeping instead of sleeping the arithmetic sequence.) -/
theorem retry_backoff_sequence :
    (∀ (E : Type) (N fuel : Nat) (I A : Int) (step : Nat → Except E Unit)
        (valid : E → Bool) (err : Nat → E),
      (∀ i, step i = Except.error (err i))
      → (∀ i, valid (err i) = true)
      → 0 < I → 0 ≤ A → N < fuel
      → (_retry step valid fuel 0 ⟨(N : Int), I, A⟩).sleeps
          = (List.range N).map (fun m : Nat => I + (m : Int) * A))
    ∧ (∀ (E : Type) (fuel a : Nat) (opts : RetryOpts)
        (step : Nat → Except E Unit) (valid : E → Bool),
      opts.retry_interval = 0
      → (_retry step valid fuel a opts).sleeps = []
        ∧ (_retry step valid fuel a opts).opts.retry_interval = 0) := by
  constructor
  · intro E N fuel I A step valid err hstep hvalid hI hA hfuel
    exact retry_backoff step valid err hstep hvalid N fuel 0 ⟨(N : Int), I, A⟩ I A rfl rfl rfl hI hA hfuel
  · intro E fuel a opts step valid h0
    exact retry_no_interval step valid fuel a opts h0

/-- C7, counterexample to the claim as stated: `retries = 2`,
`retry_interval = 1` and `retry_interval_add = -1` are all truthy numeric
options, the step fails three times, yet the sleeps are `[1]` — not the
claimed `I, I+A = [1, 0]` — because after the first sleep the interval is
`0`, falsy, so the loop neither sleeps nor increments again. -/
theorem retry_backoff_counterexample :
    intTruthy 1 = true ∧ intTruthy (-1) = true
    ∧ (_retry (fun _ => Except.error 0) (fun _ => true) 3 0
        ⟨2, 1, -1⟩ : RetryRes Nat).fin = RetryEnd.raised 0
    ∧ (_retry (fun _ => Except.error 0) (fun _ => true) 3 0
        ⟨2, 1, -1⟩ : RetryRes Nat).attempts = 3
    ∧ (_retry (fun _ => Except.error 0) (fun _ => true) 3 0
        ⟨2, 1, -1⟩ : RetryRes Nat).sleeps = [1]
    ∧ ([1] : List Int) ≠ [1, 1 + (-1)] := by
  refine ⟨rfl, rfl, rfl, rfl, rfl, by decide⟩

/-- After poll `c + 1`, the interval update keeps the invariant
`level = count / 3`, `interval = count / 3 + 1`. -/
lemma poll_update_invariant (c : Nat) :
    _poll_update_interval
        { poll_complete := false, poll_count := c + 1
          poll_interval_level := c / 3, poll_interval_s := c / 3 + 1 }
      = { poll_complete := false, poll_count := c + 1
          poll_interval_level := (c + 1) / 3,
          poll_interval_s := (c + 1) / 3 + 1 } := by
  simp only [_poll_update_interval]
  split
  next h =>
    have h2 : c / 3 < (c + 1) / 3 := by simpa using h
    have h3 : (c + 1) / 3 = c / 3 + 1 := by omega
    simp [h3]
  next h =>
    have h2 : ¬ c / 3 < (c + 1) / 3 := by simpa using h
    have h3 : (c + 1) / 3 = c / 3 := by omega
    simp [h3]

/-- A probe that completes exactly on poll `M`, entered after `c < M` polls
with the staircase invariant holding, drives the loop to poll `M`, sleeping
`(n-1)/3 + 1` seconds after each intermediate poll `n`. -/
lemma poll_run (M : Nat) (action : PollState → PollState)
    (ha : ∀ st, action st
      = { st with poll_complete := decide (st.poll_count = M) }) :
    ∀ (fuel c : Nat), c < M → M ≤ c + fuel →
      _poll action fuel
          { poll_complete := false, poll_count := c
            poll_interval_level := c / 3, poll_interval_s := c / 3 + 1 }
        = some ({ poll_complete := true, poll_count := M
                  poll_interval_level := (M - 1) / 3
                  poll_interval_s := (M - 1) / 3 + 1 },
            (List.range' (c + 1) (M - 1 - c)).map (fun n => (n - 1) / 3 + 1)) := by
  intro fuel
  induction fuel with
  | zero =>
    intro c h1 h2
    exact absurd h2 (by omega)
  | succ fuel ih =>
    intro c h1 h2
    by_cases hM : c + 1 = M
    · subst hM
      simp [_poll, ha, Nat.add_sub_cancel, Nat.sub_self]
    · have hdec : decide (c + 1 = M) = false := by simp [hM]
      have hrec := ih (c + 1) (by omega) (by omega)
      have hn : M - 1 - c = (M - 1 - (c + 1)) + 1 := by omega
      rw [hn, List.range'_succ, List.map_cons]
      have hhead : (c + 1 - 1) / 3 + 1 = c / 3 + 1 := by omega
      rw [hhead]
      simp [_poll, ha, hdec, poll_update_invariant, hrec]

/-- C2. A probe setting the completion flag exactly on its `M`-th invocation
makes the poll loop run the probe exactly `M` times starting from the
constructed state (interval one second), exiting as soon as the flag is
set, with the sleep after poll `n` lasting `(n-1)/3 + 1 = ceil(n/3)`
seconds; and the completion flag is the sole exit condition: a probe that
never sets it makes the loop consume any amount of fuel without exiting. -/
theorem poll_escalation :
    (∀ (M : Nat) (action : PollState → PollState) (fuel : Nat),
      1 ≤ M
      → (∀ st, action st
          = { st with poll_complete := decide (st.poll_count = M) })
      → M ≤ fuel
      → _poll action fuel _reset_poll
          = some ({ poll_complete := true, poll_count := M
                    poll_interval_level := (M - 1) / 3
                    poll_interval_s := (M - 1) / 3 + 1 },
              (List.range (M - 1)).map (fun n : Nat => n / 3 + 1)))
    ∧ (∀ (action : PollState → PollState) (fuel : Nat) (st : PollState),
      (∀ s, (action s).poll_complete = false)
      → _poll action fuel st = Option.none) := by
  constructor
  · intro M action fuel hM ha hfuel
    have h := poll_run M action ha fuel 0 (by omega) (by omega)
    have hreset : _reset_poll
        = { poll_complete := false, poll_count := 0
            poll_interval_level := 0 / 3, poll_interval_s := 0 / 3 + 1 } := rfl
    rw [hreset, h]
    have hlist : (List.range' (0 + 1) (M - 1 - 0)).map (fun n => (n - 1) / 3 + 1)
        = (List.range (M - 1)).map (fun n : Nat => n / 3 + 1) := by
      rw [show (0 + 1) = 1 from rfl, show M - 1 - 0 = M - 1 from rfl,
        List.range'_eq_map_range, List.map_map]
      apply List.map_congr_left
      intro n _
      simp only [Function.comp_apply]
      omega
    rw [hlist]
  · intro action fuel st hps
    induction fuel generalizing st with
    | zero => rfl
    | succ fuel ih =>
      have h1 : (action { st with poll_count := st.poll_count + 1 }).poll_complete
          = false := hps _
      simp [_poll, h1, ih]

lemma lookup_append {α : Type} (k : String) :
    ∀ l1 l2 : List (String × α), (l1 ++ l2).lookup k
      = match l1.lookup k with
        | some v => some v
        | Option.none => l2.lookup k := by
  intro l1 l2
  induction l1 with
  | nil => simp
  | cons a t ih =>
    rcases a with ⟨ka, va⟩
    cases hk : k == ka <;>
      simp [List.lookup_cons, hk, ih]

lemma lookup_filter_agree {α : Type} (k : String) (p q : String × α → Bool)
    (h : ∀ v, p (k, v) = q (k, v)) :
    ∀ l : List (String × α), (l.filter p).lookup k = (l.filter q).lookup k := by
  intro l
  induction l with
  | nil => rfl
  | cons a t ih =>
    rcases a with ⟨ka, va⟩
    by_cases hk : k = ka
    · subst hk
      rw [List.filter_cons, List.filter_cons, h va]
      cases hq : q (k, va)
      · simpa using ih
      · simp [List.lookup_cons]
    · have hbeq : (k == ka) = false := by simp [hk]
      rw [List.filter_cons, List.filter_cons]
      cases hp : p (ka, va) <;> cases hq : q (ka, va) <;>
        simp [List.lookup_cons, hbeq, ih]

/-- Reading one key out of a Python `dict.update`: the updating mapping
wins when it carries the key, else the base mapping is read. -/
lemma dictUpdate_lookup {α : Type} (k : String) :
    ∀ base upd : List (String × α),
      (dictUpdate base upd).lookup k
        = match upd.lookup k with
          | some v => some v
          | Option.none => base.lookup k := by
  intro base
  induction base with
  | nil =>
    intro upd
    simp only [dictUpdate, List.map_nil, List.nil_append]
    have hf : upd.filter
        (fun kv => (List.lookup kv.1 (List.nil (α := String × α))).isNone) = upd :=
      List.filter_eq_self.mpr (fun a _ => by simp)
    rw [hf]
    rcases h : upd.lookup k with _ | v <;> simp
  | cons a t ih =>
    intro upd
    rcases a with ⟨ka, va⟩
    simp only [dictUpdate, List.map_cons, List.cons_append]
    by_cases hk : k = ka
    · subst hk
      rcases h : upd.lookup k with _ | v <;>
        simp [List.lookup_cons, h]
    · have hbeq : (k == ka) = false := by simp [hk]
      have hhead : (match upd.lookup ka with
          | some v => (ka, v)
          | Option.none => (ka, va)).1 = ka := by
        cases hmu : upd.lookup ka <;> simp
      have hskip : ∀ (hp : String × α) (rest : List (String × α)), hp.1 = ka
          → List.lookup k (hp :: rest) = List.lookup k rest := by
        intro hp rest hhp
        rcases hp with ⟨hk1, hv1⟩
        cases hhp
        simp [List.lookup_cons, hbeq]
      rw [hskip _ _ hhead]
      rw [lookup_append]
      have hih := ih upd
      rw [dictUpdate, lookup_append] at hih
      have hagree := lookup_filter_agree k
        (fun kv => (((ka, va) :: t).lookup kv.1).isNone)
        (fun kv => (t.lookup kv.1).isNone)
        (fun v => by simp [List.lookup_cons, hbeq]) upd
      rw [hagree, hih]
      rcases h : upd.lookup k with _ | v
      · simp [List.lookup_cons, hbeq]
      · simp

/-- C8 (amended). `freeze` returns exactly one record; its `name` defaults
to the task-config name when truthy, else the task's own name, and — like
`kind` (default `"other"`) and `is_required` (default `True`) — that
default is overridable by the `ui_options` block of the task config; then
`path`, `step_num` (the step number as text), `task_class`, the
`task_config` block `{options, checks-or-empty}` and `source` are set
unconditionally, overriding any `ui_options` values for those keys. -/
theorem freeze_step_record (tc : TaskConfigM) (self_name : PyVal)
    (options : List (String × PyVal)) (step : StepM) :
    ∃ r, freeze tc self_name options step = [PyVal.dict r]
    ∧ r.lookup "name"
        = some ((tc.ui_options.lookup "name").getD (pyOr tc.name self_name))
    ∧ r.lookup "kind"
        = some ((tc.ui_options.lookup "kind").getD (PyVal.str "other"))
    ∧ r.lookup "is_required"
        = some ((tc.ui_options.lookup "is_required").getD (PyVal.bool true))
    ∧ r.lookup "path" = some step.path
    ∧ r.lookup "step_num" = some (PyVal.str step.step_num.toText)
    ∧ r.lookup "task_class" = some tc.class_path
    ∧ r.lookup "task_config"
        = some (PyVal.dict [("options", PyVal.dict options),
            ("checks", pyOr tc.checks (PyVal.list []))])
    ∧ r.lookup "source" = some step.frozenspec := by
  refine ⟨_, rfl, ?_, ?_, ?_, ?_, ?_, ?_, ?_, ?_⟩ <;>
    rw [dictUpdate_lookup] <;>
    simp only [List.lookup_cons] <;>
    simp only [show (("name" : String) == "path") = false from rfl,
      show (("name" : String) == "step_num") = false from rfl,
      show (("name" : String) == "task_class") = false from rfl,
      show (("name" : String) == "task_config") = false from rfl,
      show (("name" : String) == "source") = false from rfl,
      show (("kind" : String) == "path") = false from rfl,
      show (("kind" : String) == "step_num") = false from rfl,
      show (("kind" : String) == "task_class") = false from rfl,
      show (("kind" : String) == "task_config") = false from rfl,
      show (("kind" : String) == "source") = false from rfl,
      show (("kind" : String) == "name") = false from rfl,
      show (("is_required" : String) == "path") = false from rfl,
      show (("is_required" : String) == "step_num") = false from rfl,
      show (("is_required" : String) == "task_class") = false from rfl,
      show (("is_required" : String) == "task_config") = false from rfl,
      show (("is_required" : String) == "source") = false from rfl,
      show (("is_required" : String) == "name") = false from rfl,
      show (("is_required" : String) == "kind") = false from rfl,
      show (("path" : String) == "path") = true from rfl,
      show (("step_num" : String) == "path") = false from rfl,
      show (("step_num" : String) == "step_num") = true from rfl,
      show (("task_class" : String) == "path") = false from rfl,
      show (("task_class" : String) == "step_num") = false from rfl,
      show (("task_class" : String) == "task_class") = true from rfl,
      show (("task_config" : String) == "path") = false from rfl,
      show (("task_config" : String) == "step_num") = false from rfl,
      show (("task_config" : String) == "task_class") = false from rfl,
      show (("task_config" : String) == "task_config") = true from rfl,
      show (("source" : String) == "path") = false from rfl,
      show (("source" : String) == "step_num") = false from rfl,
      show (("source" : String) == "task_class") = false from rfl,
      show (("source" : String) == "task_config") = false from rfl,
      show (("source" : String) == "source") = true from rfl,
      show (("name" : String) == "name") = true from rfl,
      show (("kind" : String) == "kind") = true from rfl,
      show (("is_required" : String) == "is_required") = true from rfl] <;>
    rw [dictUpdate_lookup] <;>
    rcases h : tc.ui_options.lookup "name" with _ | v <;>
    rcases h2 : tc.ui_options.lookup "kind" with _ | v2 <;>
    rcases h3 : tc.ui_options.lookup "is_required" with _ | v3 <;>
    simp [List.lookup_cons, h, h2, h3]

/-- C8, counterexample to the claim as stated: the `ui_options` block can
override `name` as well — with `ui_options = {"name": "override"}` the
frozen record's name is `"override"`, not the task-config name
(`"cfgname"`) the claim promises nor the task's own name. -/
theorem freeze_name_counterexample :
    ∃ r, freeze
        { name := PyVal.str "cfgname", checks := PyVal.none
          class_path := PyVal.str "cls"
          ui_options := [("name", PyVal.str "override")] }
        (PyVal.str "taskname") []
        { path := PyVal.str "force_deploy", step_num := StepNum.str "1"
          frozenspec := PyVal.none }
      = [PyVal.dict r]
    ∧ r.lookup "name" = some (PyVal.str "override")
    ∧ PyVal.str "override" ≠ PyVal.str "cfgname"
    ∧ PyVal.str "override" ≠ PyVal.str "taskname" := by
  refine ⟨_, rfl, rfl, by simp, by simp⟩

lemma pcSub_cons_not_dollar (g : String → String) (c : Char) (cs : List Char)
    (h : c ≠ '$') : pcSub g (c :: cs) = c :: pcSub g cs := by
  have hb : ('$' == c) = false := by simp [Ne.symm h]
  have hpre : pcPattern.isPrefixOf (c :: cs) = false := by
    rw [show pcPattern = '$' :: "project_config".toList from rfl]
    simp [List.isPrefixOf, hb]
  simp [pcSub, hpre]

lemma pcSub_append_nodollar (g : String → String) :
    ∀ (pre l : List Char), '$' ∉ pre
      → pcSub g (pre ++ l) = pre ++ pcSub g l := by
  intro pre
  induction pre with
  | nil => intro l _; simp
  | cons c t ih =>
    intro l h
    have hc : c ≠ '$' := fun hh => h (by simp [hh])
    rw [List.cons_append, pcSub_cons_not_dollar g c _ hc,
      ih l (fun hm => h (by simp [hm]))]
    rfl

/-- A string with no `$` is left unchanged by the substitution. -/
lemma pcSub_nodollar (g : String → String) (l : List Char) (h : '$' ∉ l) :
    pcSub g l = l := by
  have h2 := pcSub_append_nodollar g l [] h
  simpa [pcSub] using h2

lemma takeWhile_word_append (attr post : List Char)
    (hw : ∀ c ∈ attr, isWordChar c = true) (hpost : nwHead post = true) :
    (attr ++ post).takeWhile isWordChar = attr
    ∧ (attr ++ post).dropWhile isWordChar = post := by
  induction attr with
  | nil =>
    simp only [List.nil_append]
    cases post with
    | nil => simp
    | cons d t =>
      have hd : isWordChar d = false := by simpa [nwHead] using hpost
      simp [List.takeWhile_cons, List.dropWhile_cons, hd]
  | cons a t ih =>
    have ha : isWordChar a = true := hw a (by simp)
    have iht := ih (fun c hc => hw c (by simp [hc]))
    simp [List.takeWhile_cons, List.dropWhile_cons, ha, iht.1, iht.2]

/-- One canonical occurrence at the head of the scan is replaced whole:
the literal pattern, the dot, a maximal nonempty word run, then a word
boundary. -/
lemma pcSub_match (g : String → String) (attr post : List Char)
    (hne : attr ≠ []) (hw : ∀ c ∈ attr, isWordChar c = true)
    (hpost : nwHead post = true) :
    pcSub g (pcPattern ++ '.' :: (attr ++ post))
      = (g attr.asString).toList ++ pcSub g post := by
  have hsplit := takeWhile_word_append attr post hw hpost
  have hdrop : List.drop 15 (pcPattern ++ '.' :: (attr ++ post))
      = '.' :: (attr ++ post) := by
    rw [show (15 : Nat) = pcPattern.length from rfl]
    exact List.drop_left _ _
  have hpre : pcPattern.isPrefixOf (pcPattern ++ '.' :: (attr ++ post)) = true :=
    List.isPrefixOf_iff_prefix.mpr (List.prefix_append _ _)
  rw [show pcPattern ++ '.' :: (attr ++ post)
      = '$' :: ("project_config".toList ++ '.' :: (attr ++ post))
      from rfl] at hdrop hpre ⊢
  rw [pcSub]
  rw [hpre]
  simp only [if_true]
  split
  next heq => rw [hdrop] at heq; cases heq
  next x rest heq =>
    rw [hdrop] at heq
    injection heq with h1 h2
    subst h2
    rw [hsplit.1, hsplit.2]
    rw [if_neg (by simp [hne])]

/-- Every canonical occurrence in a template is substituted, left to right. -/
lemma pcSub_template (g : String → String) :
    ∀ (segs : List (List Char × List Char)) (tail : List Char),
      goodTemplate segs tail
      → pcSub g (renderL segs tail) = substL g segs tail := by
  intro segs
  induction segs with
  | nil =>
    intro tail h
    simpa [renderL, substL] using pcSub_nodollar g tail h
  | cons sa rest ih =>
    rcases sa with ⟨seg, attr⟩
    intro tail h
    rcases h with ⟨hseg, hne, hw, hnw, hrest⟩
    simp only [renderL, substL]
    rw [List.append_assoc, pcSub_append_nodollar g seg _ hseg,
      pcSub_match g attr (renderL rest tail) hne hw hnw, ih tail hrest,
      List.append_assoc]

lemma lookup_map_templating (pc : String → Option String) (k : String) :
    ∀ l : List (String × PyVal),
      (l.map (fun kv => (kv.1, applyTemplating pc kv.2))).lookup k
        = (l.lookup k).map (applyTemplating pc) := by
  intro l
  induction l with
  | nil => simp
  | cons a t ih =>
    rcases a with ⟨ka, va⟩
    cases hk : k == ka <;> simp [List.lookup_cons, hk, ih]

/-- C4. At construction, every string-valued resolved option has each
canonical `$project_config.<attr>` occurrence replaced by the string form
of the project configuration's attribute (a missing attribute rendering as
the literal placeholder `"None"`, not an error), while options whose
values are not strings pass through untouched; the substitution is a pure
function of the construction inputs, applied exactly once here and by no
other lifecycle operation. -/
theorem option_templating (pc : String → Option String)
    (tco : Option (List (String × PyVal))) (kwargs : List (String × PyVal)) :
    (∀ k v, (dictUpdate (tco.getD []) kwargs).lookup k = some v
      → (∀ s, v ≠ PyVal.str s)
      → (_init_options pc tco kwargs).lookup k = some v)
    ∧ (∀ k segs tail, goodTemplate segs tail
      → (dictUpdate (tco.getD []) kwargs).lookup k
          = some (PyVal.str (renderL segs tail).asString)
      → (_init_options pc tco kwargs).lookup k
          = some (PyVal.str (substL (strOfAttr pc) segs tail).asString))
    ∧ (∀ a, pc a = Option.none → strOfAttr pc a = "None") := by
  refine ⟨?_, ?_, ?_⟩
  · intro k v h hns
    simp only [_init_options]
    rw [lookup_map_templating, h]
    rcases v with s | n | b | _ | l | d
    · exact absurd rfl (hns s)
    all_goals rfl
  · intro k segs tail hgood h
    simp only [_init_options]
    rw [lookup_map_templating, h]
    have happ : applyTemplating pc (PyVal.str (renderL segs tail).asString)
        = PyVal.str (substL (strOfAttr pc) segs tail).asString := by
      simp only [applyTemplating]
      rw [show ((renderL segs tail).asString).toList = renderL segs tail from rfl]
      rw [pcSub_template (strOfAttr pc) segs tail hgood]
    rw [show (some (PyVal.str (renderL segs tail).asString)).map
        (applyTemplating pc)
        = some (applyTemplating pc (PyVal.str (renderL segs tail).asString))
        from rfl, happ]
  · intro a h
    simp [strOfAttr, h]

end Tasks
